import Mathlib

/-!
Verification of the beat-timing refinement pipeline in `bpm.py`.

Real values are modelled as rationals (`ℚ`); numpy arrays as `List ℚ`.
Each definition is a direct shallow embedding of the corresponding
Python function or numpy primitive used by `bpm.py`.
-/

set_option allowUnsafeReducibility true in
attribute [semireducible] Rat.add Rat.mul Rat.inv Rat.sub Rat.ofScientific

namespace Companella

/-- Python `int(x)`: truncation toward zero. -/
def pyInt (x : ℚ) : ℤ := if x < 0 then -⌊-x⌋ else ⌊x⌋

/-- numpy `np.diff`: consecutive differences, `out[i] = l[i+1] - l[i]`. -/
def diff (l : List ℚ) : List ℚ := List.zipWith (fun a b => b - a) l l.tail

/-- numpy `np.median`: sort, take the middle element (odd length) or the
mean of the two middle elements (even length).  `bpm.py` never calls it on
an empty array; we return 0 there. -/
def median (l : List ℚ) : ℚ :=
  let s := l.insertionSort (· ≤ ·)
  let n := s.length
  if n = 0 then 0
  else if n % 2 = 1 then s.getD (n / 2) 0
  else (s.getD (n / 2 - 1) 0 + s.getD (n / 2) 0) / 2

/-- numpy maximum of an array (`np.max`); 0 for the empty list (unused case). -/
def listMax : List ℚ → ℚ
  | [] => 0
  | x :: xs => xs.foldl max x

/-- numpy minimum of an array (`np.min`); 0 for the empty list (unused case). -/
def listMin : List ℚ → ℚ
  | [] => 0
  | x :: xs => xs.foldl min x

/-- numpy `np.argmax`: index of the first occurrence of the maximum value. -/
def idxArgmax (l : List ℚ) : ℕ := l.findIdx (fun x => decide (x = listMax l))

/-- numpy `np.argmin`: index of the first occurrence of the minimum value. -/
def idxArgmin (l : List ℚ) : ℕ := l.findIdx (fun x => decide (x = listMin l))

/-- One step of the binary search used by numpy `searchsorted` (left side):
`while lo < hi: mid = (lo+hi)//2; if a[mid] < v: lo = mid+1 else hi = mid`.
The first argument is fuel; `a.length + 1` halving steps always suffice. -/
def bisectAux (a : List ℚ) (v : ℚ) : ℕ → ℕ → ℕ → ℕ
  | 0, lo, _ => lo
  | fuel + 1, lo, hi =>
    if lo < hi then
      let mid := (lo + hi) / 2
      if a.getD mid 0 < v then bisectAux a v fuel (mid + 1) hi
      else bisectAux a v fuel lo mid
    else lo

/-- numpy `np.searchsorted(a, v)` (default side `left`). -/
def searchsorted (a : List ℚ) (v : ℚ) : ℕ := bisectAux a v (a.length + 1) 0 a.length

/-- Python `list.insert(pos, x)`: insert before position `pos`, appending
when `pos` is beyond the end. -/
def insertAt : ℕ → ℚ → List ℚ → List ℚ
  | 0, x, l => x :: l
  | _ + 1, x, [] => [x]
  | n + 1, x, a :: l => a :: insertAt n x l

/-- Python `sorted(set(l))`: the distinct values of `l` in increasing order. -/
def sortedDedup (l : List ℚ) : List ℚ := (l.dedup).insertionSort (· ≤ ·)

/-! ### Beat-to-Onset Refiner (`refine_beats_to_onsets_advanced`) -/

/-- The search window of `refine_beats_to_onsets_advanced`:
`avg_beat_interval = np.median(np.diff(beat_frames)) if len(beat_frames) > 1 else 100`,
`search_window = max(4, int(avg_beat_interval / 4))`. -/
def searchWindow (beat_frames : List ℚ) : ℤ :=
  let avg : ℚ := if 1 < beat_frames.length then median (diff beat_frames) else 100
  max 4 (pyInt (avg / 4))

/-- The lower end `start = max(0, int(frame) - w)` of the fallback search range. -/
def fbStart (w : ℤ) (frame : ℚ) : ℤ := max 0 (pyInt frame - w)

/-- The upper end `end = min(len(onset_env), int(frame) + w + 1)` of the
fallback search range. -/
def fbStop (onset_env : List ℚ) (w : ℤ) (frame : ℚ) : ℤ :=
  min (onset_env.length : ℤ) (pyInt frame + w + 1)

/-- The slice `onset_env[start:end]` searched by the fallback. -/
def fbSeg (onset_env : List ℚ) (w : ℤ) (frame : ℚ) : List ℚ :=
  (onset_env.drop (fbStart w frame).toNat).take (fbStop onset_env w frame - fbStart w frame).toNat

/-- The snap-to-peak fallback of the refiner loop body:
`start = max(0, int(frame) - w); end = min(len(onset_env), int(frame) + w + 1);`
`if start < end: refined = start + np.argmax(onset_env[start:end])`. -/
def peakFallback (onset_env : List ℚ) (w : ℤ) (frame : ℚ) : ℚ :=
  if fbStart w frame < fbStop onset_env w frame then
    ((fbStart w frame : ℤ) : ℚ) + (idxArgmax (fbSeg onset_env w frame) : ℚ)
  else frame

/-- The vector `np.abs(onset_frames - frame)` of distances to each onset. -/
def onsetDists (onset_frames : List ℚ) (frame : ℚ) : List ℚ :=
  onset_frames.map (fun o => |o - frame|)

/-- The body of the refiner loop for one beat position: snap to the nearest
detected onset when it is within the search window, otherwise fall back to
the local envelope peak. -/
def refineOne (onset_env onset_frames : List ℚ) (w : ℤ) (frame : ℚ) : ℚ :=
  if 0 < onset_frames.length then
    if (onsetDists onset_frames frame).getD (idxArgmin (onsetDists onset_frames frame)) 0 ≤ (w : ℚ) then
      onset_frames.getD (idxArgmin (onsetDists onset_frames frame)) 0
    else peakFallback onset_env w frame
  else peakFallback onset_env w frame

/-- `refine_beats_to_onsets_advanced(onset_env, beat_frames, onset_frames, ...)`:
`refined = np.copy(beat_frames)` updated independently at each index. -/
def refine_beats_to_onsets_advanced (onset_env beat_frames onset_frames : List ℚ) :
    List ℚ :=
  beat_frames.map (refineOne onset_env onset_frames (searchWindow beat_frames))

/-! ### Offbeat / Phase-Shift Detector (`detect_and_insert_offbeats`) -/

/-- A detected phase-shift event (`{'beat_idx': …, 'phase': …, 'type': …}`). -/
structure Shift where
  beatIdx : ℤ
  phase : ℚ
  kind : String
deriving DecidableEq

/-- The onset-phase computation of `detect_and_insert_offbeats`: for each
onset, find the enclosing beat interval via `searchsorted` and record the
phase `((onset - beat_start) / local_interval) % 1.0` together with the
enclosing beat index.  Onsets outside a proper interval are discarded. -/
def computePhases (beat_frames onset_frames : List ℚ) : List ℚ × List ℤ :=
  onset_frames.foldl (fun acc onset =>
    let beatIdx : ℤ := (searchsorted beat_frames onset : ℤ) - 1
    if 0 ≤ beatIdx ∧ beatIdx < (beat_frames.length : ℤ) - 1 then
      let beatStart := beat_frames.getD beatIdx.toNat 0
      let localInterval := beat_frames.getD (beatIdx.toNat + 1) 0 - beatStart
      if 0 < localInterval then
        let phase0 := (onset - beatStart) / localInterval
        let phase := phase0 - Rat.floor phase0
        (acc.1 ++ [phase], acc.2 ++ [beatIdx])
      else acc
    else acc) ([], [])

/-- The candidate offbeat phases `[0.5, 0.25, 0.75]`. -/
def offbeatPhases : List ℚ := [1/2, 1/4, 3/4]

/-- `phase_tolerance = 0.15`. -/
def phaseTol : ℚ := 3/20

/-- `window_size = 8`. -/
def windowSize : ℕ := 8

/-- `np.mean(np.abs(window_phases - target) < phase_tolerance)`: the fraction
of phases within the tolerance of the target. -/
def ratioNear (phases : List ℚ) (target : ℚ) : ℚ :=
  ((phases.countP (fun p => decide (|p - target| < phaseTol))) : ℚ) / (phases.length : ℚ)

/-- `np.mean(near_onbeat)` where a phase is near on-beat when it is below the
tolerance or above one minus the tolerance. -/
def ratioOnbeat (phases : List ℚ) : ℚ :=
  ((phases.countP (fun p => decide (p < phaseTol ∨ 1 - phaseTol < p))) : ℚ) /
    (phases.length : ℚ)

/-- The shifts appended by one iteration `i` of the sliding-window loop of
`detect_and_insert_offbeats`: first the offbeat-transition tests for each
candidate phase (in order), then the single to-onbeat test. -/
def windowShifts (phases : List ℚ) (idxs : List ℤ) (i : ℕ) : List Shift :=
  let wp := (phases.drop i).take windowSize
  let wb := (idxs.drop i).take windowSize
  let partA := offbeatPhases.foldl (fun acc op =>
    if 3/5 < ratioNear wp op then
      if windowSize ≤ i then
        let pp := (phases.drop (i - windowSize)).take windowSize
        if ratioNear pp op < 2/5 then acc ++ [⟨wb.getD 0 0, op, "to_offbeat"⟩]
        else acc
      else if i = 0 then acc ++ [⟨0, op, "start_offbeat"⟩]
      else acc
    else acc) []
  let partB :=
    if 3/5 < ratioOnbeat wp ∧ windowSize ≤ i then
      let pp := (phases.drop (i - windowSize)).take windowSize
      match offbeatPhases.find? (fun op => decide (1/2 < ratioNear pp op)) with
      | some _ => [⟨idxs.getD i 0, 0, "to_onbeat"⟩]
      | none => []
    else []
  partA ++ partB

/-- All phase shifts collected over `for i in range(len(onset_phases) - window_size)`. -/
def computeShifts (phases : List ℚ) (idxs : List ℤ) : List Shift :=
  (List.range (phases.length - windowSize)).foldl
    (fun acc i => acc ++ windowShifts phases idxs i) []

/-- Deduplication of phase shifts by beat index, keeping the first event
encountered per index (the `seen_beats` set in the source). -/
def uniqueShifts (shifts : List Shift) : List Shift :=
  (shifts.foldl (fun (acc : List Shift × List ℤ) s =>
    if s.beatIdx ∈ acc.2 then acc else (acc.1 ++ [s], acc.2 ++ [s.beatIdx]))
    ([], [])).1

/-- The frame value inserted for one phase-shift event: the theoretical
offbeat position `beat_start + phase * local_interval`, snapped to the
nearest real onset when that onset lies within 20% of the local interval. -/
def offbeatValue (beat_frames onset_frames : List ℚ) (s : Shift) : ℚ :=
  let beatStart := beat_frames.getD s.beatIdx.toNat 0
  let localInterval := beat_frames.getD (s.beatIdx.toNat + 1) 0 - beatStart
  let offbeat0 := beatStart + s.phase * localInterval
  let dists := onset_frames.map (fun o => |o - offbeat0|)
  if 0 < dists.length then
    if dists.getD (idxArgmin dists) 0 < localInterval * (1/5) then
      onset_frames.getD (idxArgmin dists) 0
    else offbeat0
  else offbeat0

/-- One iteration of the insertion loop of `detect_and_insert_offbeats`:
skip out-of-range beat indices, and for phases above `0.01` insert the
offbeat frame at `beat_idx + 1 + inserted_count`. -/
def insertStep (beat_frames onset_frames : List ℚ) (acc : List ℚ × ℕ) (s : Shift) :
    List ℚ × ℕ :=
  if s.beatIdx < 0 ∨ (beat_frames.length : ℤ) - 1 ≤ s.beatIdx then acc
  else if 1/100 < s.phase then
    (insertAt (s.beatIdx.toNat + 1 + acc.2) (offbeatValue beat_frames onset_frames s) acc.1,
     acc.2 + 1)
  else acc

/-- The insertion loop of `detect_and_insert_offbeats`, starting from
`new_beats = list(beat_frames)` and `inserted_count = 0`. -/
def insertShifts (beat_frames onset_frames : List ℚ) (shifts : List Shift) : List ℚ :=
  (shifts.foldl (insertStep beat_frames onset_frames) (beat_frames, 0)).1

/-- The deduplicated phase-shift events of `detect_and_insert_offbeats` for a
given pair of beat and onset sequences. -/
def detectedShifts (beat_frames onset_frames : List ℚ) : List Shift :=
  uniqueShifts (computeShifts (computePhases beat_frames onset_frames).1
    (computePhases beat_frames onset_frames).2)

/-- `detect_and_insert_offbeats(beat_frames, onset_frames, ...)`.  The
`onset_env`, `tempo`, `hop_length` and `sr` parameters of the source are
never read by the function body and are omitted. -/
def detect_and_insert_offbeats (beat_frames onset_frames : List ℚ) : List ℚ :=
  if beat_frames.length < 4 ∨ onset_frames.length < 4 then beat_frames
  else if median (diff beat_frames) ≤ 0 then beat_frames
  else if (computePhases beat_frames onset_frames).1.length < 4 then beat_frames
  else if detectedShifts beat_frames onset_frames = [] then beat_frames
  else
    sortedDedup (insertShifts beat_frames onset_frames
      ((detectedShifts beat_frames onset_frames).insertionSort
        (fun a b => a.beatIdx ≤ b.beatIdx)))

/-! ### Sub-frame Time Interpolator (`frames_to_time_precise`) -/

/-- The parabolic peak-interpolation offset
`p = 0.5 * (alpha - gamma) / (alpha - 2*beta + gamma + 1e-8)`. -/
def parabOffset (a b c : ℚ) : ℚ := 1/2 * (a - c) / (a - 2 * b + c + 1/100000000)

/-- The per-frame refinement of `frames_to_time_precise`: parabolic
interpolation at interior strict local peaks, the raw frame otherwise. -/
def refineFrame (onset_env : List ℚ) (frame : ℚ) : ℚ :=
  let fi := pyInt frame
  if 1 ≤ fi ∧ fi < (onset_env.length : ℤ) - 1 then
    let a := onset_env.getD (fi.toNat - 1) 0
    let b := onset_env.getD fi.toNat 0
    let c := onset_env.getD (fi.toNat + 1) 0
    if a < b ∧ c < b then (fi : ℚ) + parabOffset a b c
    else frame
  else frame

/-- `frames_to_time_precise(frames, onset_env, hop_length, sr)`:
`time = refined_frame * hop_length / sr` for each frame. -/
def frames_to_time_precise (frames onset_env : List ℚ) (hop_length sr : ℚ) : List ℚ :=
  frames.map (fun f => refineFrame onset_env f * hop_length / sr)

/-! ### Instantaneous BPM (`analyze_bpm`, lines 152-154) -/

/-- `beat_intervals = np.maximum(np.diff(beat_times), 1e-6); bpms = 60.0 / beat_intervals`. -/
def computeBpms (beat_times : List ℚ) : List ℚ :=
  (diff beat_times).map (fun d => 60 / max d (1/1000000))

/-! ### BPM Stabilizer (`stabilize_bpm_sections`) -/

/-- A stable-tempo section (`{'start_idx', 'end_idx', 'bpm', 'time'}`). -/
structure Section where
  start_idx : ℕ
  end_idx : ℕ
  bpm : ℚ
  time : ℚ
deriving DecidableEq

/-- The segmentation scan of `stabilize_bpm_sections`, processing the
remaining BPM values one at a time.  `i` is the index of the next value,
`curStart`/`curBpms` the start index and accumulated values of the current
section, `total` the total number of BPM values (the final section is closed
with `end_idx = total - 1`). -/
def segmentAux (beat_times : List ℚ) (total : ℕ) (tol : ℚ) :
    List ℚ → ℕ → ℕ → List ℚ → List Section
  | [], _, curStart, curBpms =>
      [⟨curStart, total - 1, median curBpms, beat_times.getD curStart 0⟩]
  | b :: rest, i, curStart, curBpms =>
      if |b - median curBpms| ≤ tol then
        segmentAux beat_times total tol rest (i + 1) curStart (curBpms ++ [b])
      else
        ⟨curStart, i - 1, median curBpms, beat_times.getD curStart 0⟩ ::
          segmentAux beat_times total tol rest (i + 1) i [b]

/-- The full segmentation scan: sections of consecutive BPM values, each value
within `tol` of the running median of its section. -/
def segmentScan (beat_times bpms : List ℚ) (tol : ℚ) : List Section :=
  match bpms with
  | [] => []
  | b :: rest => segmentAux beat_times bpms.length tol rest 1 0 [b]

/-- The merged section produced by the merge pass.  Mirroring the source, the
weight of the left section is computed after its `end_idx` has already been
extended (`last['end_idx'] = section['end_idx']` precedes the count reads), so
it is `section.end_idx - last.start_idx + 1` rather than the left section's
own length. -/
def mergedOf (cur s : Section) : Section :=
  let lastCount : ℚ := (s.end_idx : ℚ) - (cur.start_idx : ℚ) + 1
  let currCount : ℚ := (s.end_idx : ℚ) - (s.start_idx : ℚ) + 1
  ⟨cur.start_idx, s.end_idx,
    (cur.bpm * lastCount + s.bpm * currCount) / (lastCount + currCount), cur.time⟩

/-- The merge pass, carrying the current last element of `merged_sections`:
a section within `tol` of it is merged in, otherwise it is emitted. -/
def mergeInto (tol : ℚ) : Section → List Section → List Section
  | cur, [] => [cur]
  | cur, s :: rest =>
    if |s.bpm - cur.bpm| ≤ tol then mergeInto tol (mergedOf cur s) rest
    else cur :: mergeInto tol s rest

/-- The merge pass over a full section list. -/
def mergeSections (tol : ℚ) : List Section → List Section
  | [] => []
  | s :: rest => mergeInto tol s rest

/-- The trailing closing time appended after the last section:
`beat_times[end+1]` when it exists, else `beat_times[-1]`. -/
def trailingTime (beat_times : List ℚ) (s : Section) : ℚ :=
  if s.end_idx + 1 < beat_times.length then beat_times.getD (s.end_idx + 1) 0
  else beat_times.getD (beat_times.length - 1) 0

/-- The output-building loop of `stabilize_bpm_sections`: one time and one BPM
per section, plus the trailing closing time after the last section. -/
def buildOutput (beat_times : List ℚ) (merged : List Section) : List ℚ × List ℚ :=
  match merged with
  | [] => ([], [])
  | _ :: _ =>
      (merged.map (fun s => s.time) ++ [trailingTime beat_times (merged.getLastD ⟨0, 0, 0, 0⟩)],
       merged.map (fun s => s.bpm))

/-- `stabilize_bpm_sections(beat_times, bpms, tolerance)`. -/
def stabilize_bpm_sections (beat_times bpms : List ℚ) (tol : ℚ) : List ℚ × List ℚ :=
  if bpms.length < 2 then (beat_times, bpms)
  else buildOutput beat_times (mergeSections tol (segmentScan beat_times bpms tol))

/-! ## Helper lemmas -/

theorem sorted_lt_of_sorted_le_nodup {l : List ℚ} (hs : List.Sorted (· ≤ ·) l)
    (hn : l.Nodup) : List.Sorted (· < ·) l :=
  (hs.and hn).imp (fun h => lt_of_le_of_ne h.1 h.2)

theorem sortedDedup_perm (l : List ℚ) : (sortedDedup l).Perm l.dedup :=
  List.perm_insertionSort (· ≤ ·) l.dedup

theorem sortedDedup_nodup (l : List ℚ) : (sortedDedup l).Nodup :=
  ((sortedDedup_perm l).nodup_iff).mpr (List.nodup_dedup l)

theorem mem_sortedDedup {a : ℚ} {l : List ℚ} : a ∈ sortedDedup l ↔ a ∈ l := by
  rw [(sortedDedup_perm l).mem_iff, List.mem_dedup]

theorem sortedDedup_sorted_lt (l : List ℚ) : List.Sorted (· < ·) (sortedDedup l) :=
  sorted_lt_of_sorted_le_nodup (List.sorted_insertionSort (· ≤ ·) l.dedup)
    (sortedDedup_nodup l)

theorem mem_insertAt {x a : ℚ} : ∀ (n : ℕ) (l : List ℚ), a ∈ l → a ∈ insertAt n x l
  | 0, l, h => List.mem_cons_of_mem x h
  | _ + 1, _ :: _, h => by
    rw [insertAt]
    rcases List.mem_cons.mp h with h1 | h2
    · exact h1 ▸ List.mem_cons_self _ _
    · exact List.mem_cons_of_mem _ (mem_insertAt _ _ h2)

theorem mem_insertStep {a : ℚ} (beats onsets : List ℚ) (acc : List ℚ × ℕ) (s : Shift)
    (h : a ∈ acc.1) : a ∈ (insertStep beats onsets acc s).1 := by
  unfold insertStep
  split
  · exact h
  · split
    · exact mem_insertAt _ _ h
    · exact h

theorem mem_foldl_insertStep {a : ℚ} (beats onsets : List ℚ) :
    ∀ (shifts : List Shift) (acc : List ℚ × ℕ), a ∈ acc.1 →
      a ∈ (shifts.foldl (insertStep beats onsets) acc).1
  | [], _, h => h
  | s :: rest, acc, h =>
    mem_foldl_insertStep beats onsets rest _ (mem_insertStep beats onsets acc s h)

theorem mem_insertShifts {a : ℚ} (beats onsets : List ℚ) (shifts : List Shift)
    (h : a ∈ beats) : a ∈ insertShifts beats onsets shifts :=
  mem_foldl_insertStep beats onsets shifts (beats, 0) h

/-! ## Claims about the Offbeat / Phase-Shift Detector -/

set_option maxRecDepth 40000 in
/-- Claim C1, counterexample: on a beat sequence with repeated frame values
(permitted by the Refiner's output contract) the detector can return FEWER
beats than it was given, because the final `sorted(set(new_beats))` removes
the duplicates.  Beats `[0,100,100,200,200,300,400]` with nine onsets at
half-beat phase trigger one `start_offbeat` insertion (frame 50) but lose
both duplicated frames, so 7 beats come back as 6. -/
theorem detect_and_insert_offbeats_shrinks :
    (detect_and_insert_offbeats [0, 100, 100, 200, 200, 300, 400]
        [50, 52, 54, 56, 58, 150, 250, 350, 352]).length <
      ([0, 100, 100, 200, 200, 300, 400] : List ℚ).length := by
  decide

/-- Claim C1, amended: when the input beat-frame sequence has no repeated
frame values, the Offbeat / Phase-Shift Detector never removes beats: the
returned sequence is at least as long as the input. -/
theorem detect_and_insert_offbeats_length_ge (beats onsets : List ℚ)
    (h : beats.Nodup) :
    beats.length ≤ (detect_and_insert_offbeats beats onsets).length := by
  unfold detect_and_insert_offbeats
  split
  · exact le_refl _
  split
  · exact le_refl _
  split
  · exact le_refl _
  split
  · exact le_refl _
  exact (List.subperm_of_subset h (fun a ha =>
    mem_sortedDedup.mpr (mem_insertShifts _ _ _ ha))).length_le

/-- Witness for the amended claim C1 at a concrete duplicate-free input. -/
theorem detect_and_insert_offbeats_length_ge_witness :
    ([0, 1, 2] : List ℚ).length ≤
      (detect_and_insert_offbeats [0, 1, 2] []).length :=
  detect_and_insert_offbeats_length_ge [0, 1, 2] [] (by decide)

/-- Claim C2, counterexample: on the early return path for fewer than 4
beats the detector returns the input unchanged, so an input with duplicate
frame values comes back NOT strictly increasing. -/
theorem detect_and_insert_offbeats_not_sorted :
    detect_and_insert_offbeats [0, 0] [] = [0, 0] ∧
      ¬ List.Sorted (· < ·) (detect_and_insert_offbeats [0, 0] []) := by
  constructor
  · decide
  · decide

/-- Claim C2, amended: if the input beat-frame sequence is strictly
increasing then on every return path of the detector (early returns included)
the returned beat-frame sequence is sorted strictly increasing with no
duplicate frame values; the fully-processed path is unconditionally strictly
increasing, while the early return paths return the input itself. -/
theorem detect_and_insert_offbeats_sorted (beats onsets : List ℚ)
    (h : List.Sorted (· < ·) beats) :
    List.Sorted (· < ·) (detect_and_insert_offbeats beats onsets) := by
  unfold detect_and_insert_offbeats
  split
  · exact h
  split
  · exact h
  split
  · exact h
  split
  · exact h
  exact sortedDedup_sorted_lt _

/-- Witness for the amended claim C2 at a concrete strictly increasing input. -/
theorem detect_and_insert_offbeats_sorted_witness :
    List.Sorted (· < ·) (detect_and_insert_offbeats [0, 1, 2] []) :=
  detect_and_insert_offbeats_sorted [0, 1, 2] [] (by decide)

/-- Claim C7: with fewer than 4 beats, fewer than 4 onsets, or fewer than 4
surviving onset-phase samples, the detector returns the input beat-frame
sequence exactly unchanged (and, being a total function, cannot raise). -/
theorem detect_and_insert_offbeats_identity (beats onsets : List ℚ)
    (h : beats.length < 4 ∨ onsets.length < 4 ∨
      (computePhases beats onsets).1.length < 4) :
    detect_and_insert_offbeats beats onsets = beats := by
  unfold detect_and_insert_offbeats
  split
  · rfl
  split
  · rfl
  split
  · rfl
  split
  · rfl
  rename_i h1 _ h3 _
  rcases h with h | h | h
  · exact absurd (Or.inl h) h1
  · exact absurd (Or.inr h) h1
  · exact absurd h h3

/-- Witness for claim C7: three beats (fewer than 4) come back unchanged. -/
theorem detect_and_insert_offbeats_identity_witness :
    detect_and_insert_offbeats [0, 1, 2] [] = [0, 1, 2] :=
  detect_and_insert_offbeats_identity [0, 1, 2] [] (Or.inl (by decide))

/-! ## Claims about the BPM Stabilizer -/

theorem mergeInto_of_gaps (tol : ℚ) :
    ∀ (rest : List Section) (cur : Section),
      List.Chain' (fun a b => tol < |b.bpm - a.bpm|) (cur :: rest) →
      mergeInto tol cur rest = cur :: rest
  | [], _, _ => rfl
  | s :: rest, cur, h => by
    rw [mergeInto, if_neg (not_le.mpr (List.chain'_cons.mp h).1),
      mergeInto_of_gaps tol rest s (List.chain'_cons.mp h).2]

/-- Claim C3, counterexample: the merge pass of `stabilize_bpm_sections` is
not idempotent on segmentation output.  On the BPM sequence
`[100, 102.5, 100.4, 100.5, 100.6, 100.6]` with tolerance 2 the scan yields
sections with BPMs `100`, `102.5`, `100.55`; one merge pass joins the last
two into BPM `3049/30 ≈ 101.63`, which a second pass then merges with the
first section (`|101.63 - 100| ≤ 2`), giving a different, shorter result. -/
theorem mergeSections_not_idempotent :
    mergeSections 2 (mergeSections 2
        (segmentScan [0, 1, 2, 3, 4, 5, 6] [100, 205/2, 502/5, 201/2, 503/5, 503/5] 2)) ≠
      mergeSections 2
        (segmentScan [0, 1, 2, 3, 4, 5, 6] [100, 205/2, 502/5, 201/2, 503/5, 503/5] 2) := by
  decide

/-- Claim C3, amended: the merge pass is idempotent only on section lists it
leaves unchanged; in particular, whenever every adjacent pair of sections
differs in BPM by more than the tolerance, one merge pass is the identity and
hence two passes agree with one.  On general segmentation output idempotence
fails (see the counterexample), because the count-weighted average of a merged
pair can land back within tolerance of the preceding section. -/
theorem mergeSections_idempotent_of_gaps (tol : ℚ) (l : List Section)
    (h : List.Chain' (fun a b => tol < |b.bpm - a.bpm|) l) :
    mergeSections tol l = l ∧
      mergeSections tol (mergeSections tol l) = mergeSections tol l := by
  have h1 : mergeSections tol l = l := by
    cases l with
    | nil => rfl
    | cons s rest => exact mergeInto_of_gaps tol rest s h
  exact ⟨h1, by rw [h1, h1]⟩

/-- Witness for the amended claim C3 on a concrete segmentation output whose
adjacent sections are farther apart than the tolerance. -/
theorem mergeSections_idempotent_of_gaps_witness :
    mergeSections 2 (segmentScan [0, 1, 2] [100, 200] 2) =
        segmentScan [0, 1, 2] [100, 200] 2 ∧
      mergeSections 2 (mergeSections 2 (segmentScan [0, 1, 2] [100, 200] 2)) =
        mergeSections 2 (segmentScan [0, 1, 2] [100, 200] 2) :=
  mergeSections_idempotent_of_gaps 2 (segmentScan [0, 1, 2] [100, 200] 2) (by
    rw [show segmentScan [0, 1, 2] [100, 200] 2 = [⟨0, 0, 100, 0⟩, ⟨1, 1, 200, 1⟩] from by decide]
    exact List.chain'_pair.mpr (by decide))

/-- Claim C6: on the BPM sequence `[120, 120.5, 121, 150, 150.2]` with
tolerance 2.0 (and the canonical six beat timestamps), the stabilizer yields
exactly two sections, with BPMs `120.5` (median of the first three) and
`150.1` (median of the last two), and the output holds exactly 2 timing
points plus one trailing closing time. -/
theorem stabilize_bpm_sections_scenarioC :
    stabilize_bpm_sections [0, 1, 2, 3, 4, 5] [120, 241/2, 121, 150, 751/5] 2 =
      ([0, 3, 5], [241/2, 1501/10]) := by
  decide

theorem segmentAux_ne_nil (times : List ℚ) (total : ℕ) (tol : ℚ) :
    ∀ (rest : List ℚ) (i curStart : ℕ) (curBpms : List ℚ),
      segmentAux times total tol rest i curStart curBpms ≠ []
  | [], _, _, _ => by simp [segmentAux]
  | b :: rest, i, curStart, curBpms => by
    rw [segmentAux]
    split
    · exact segmentAux_ne_nil times total tol rest _ _ _
    · simp

theorem mergeInto_ne_nil (tol : ℚ) : ∀ (rest : List Section) (cur : Section),
    mergeInto tol cur rest ≠ []
  | [], _ => by simp [mergeInto]
  | s :: rest, cur => by
    rw [mergeInto]
    split
    · exact mergeInto_ne_nil tol rest _
    · simp

theorem buildOutput_length (times : List ℚ) (merged : List Section)
    (h : merged ≠ []) :
    (buildOutput times merged).1.length = (buildOutput times merged).2.length + 1 := by
  match merged, h with
  | m :: ms, _ => simp [buildOutput]

/-- Claim C10: with at least 2 BPM values the stabilizer returns one more
timestamp than BPM values (one timing point per surviving section plus the
single trailing closing time), the pairing the output formatter relies on
when zipping `times[:-1]` with the BPM values. -/
theorem stabilize_bpm_sections_length (times bpms : List ℚ) (tol : ℚ)
    (h : 2 ≤ bpms.length) :
    (stabilize_bpm_sections times bpms tol).1.length =
      (stabilize_bpm_sections times bpms tol).2.length + 1 := by
  unfold stabilize_bpm_sections
  rw [if_neg (Nat.not_lt.mpr h)]
  apply buildOutput_length
  cases bpms with
  | nil => exact absurd h (by decide)
  | cons b rest =>
    rw [segmentScan]
    cases hseg : segmentAux times (b :: rest).length tol rest 1 0 [b] with
    | nil => exact absurd hseg (segmentAux_ne_nil times (b :: rest).length tol rest 1 0 [b])
    | cons s ss => rw [mergeSections]; exact mergeInto_ne_nil tol ss s

/-- Witness for claim C10 at a concrete two-value BPM input. -/
theorem stabilize_bpm_sections_length_witness :
    (stabilize_bpm_sections [0, 1, 2] [100, 100] 2).1.length =
      (stabilize_bpm_sections [0, 1, 2] [100, 100] 2).2.length + 1 :=
  stabilize_bpm_sections_length [0, 1, 2] [100, 100] 2 (by decide)

/-! ## Claims about the BPM computation and the Beat-to-Onset Refiner -/

/-- Claim C8: every interval is clamped to at least `1e-6` seconds before the
division `bpm = 60 / interval`, so every computed BPM value is strictly
positive, and an interval of exactly 0 seconds yields `BPM = 60/1e-6 =
60000000`, a large but finite value. -/
theorem computeBpms_pos (times : List ℚ) (i : ℕ) (hi : i < (diff times).length) :
    0 < (computeBpms times).getD i 0 ∧
      ((diff times).getD i 0 = 0 → (computeBpms times).getD i 0 = 60000000) := by
  have hlen : i < (computeBpms times).length := by
    simpa [computeBpms] using hi
  have hval : (computeBpms times).getD i 0 =
      60 / max ((diff times).getD i 0) (1/1000000) := by
    rw [List.getD_eq_getElem _ _ hlen, List.getD_eq_getElem _ _ hi]
    simp [computeBpms]
  constructor
  · rw [hval]
    exact div_pos (by norm_num)
      (lt_of_lt_of_le (by norm_num) (le_max_right _ _))
  · intro h0
    rw [hval, h0]
    norm_num

/-- Witness for claim C8: two identical timestamps give a zero interval and
the clamped BPM `60000000 > 0`. -/
theorem computeBpms_pos_witness :
    0 < (computeBpms [0, 0]).getD 0 0 ∧
      ((diff [0, 0]).getD 0 0 = 0 → (computeBpms [0, 0]).getD 0 0 = 60000000) :=
  computeBpms_pos [0, 0] 0 (by decide)

/-- Claim C9: the Beat-to-Onset Refiner returns exactly one refined position
per input beat: it never inserts or deletes beats. -/
theorem refine_beats_to_onsets_advanced_length (onset_env beats onsets : List ℚ) :
    (refine_beats_to_onsets_advanced onset_env beats onsets).length = beats.length := by
  simp [refine_beats_to_onsets_advanced]

/-! ## Claims about the Sub-frame Time Interpolator -/

theorem int_rat_add_one_le {f g : ℚ} (hf : f.den = 1) (hg : g.den = 1) (h : f < g) :
    f + 1 ≤ g := by
  rw [← Rat.coe_int_num_of_den_eq_one hf, ← Rat.coe_int_num_of_den_eq_one hg] at h ⊢
  have h2 : f.num + 1 ≤ g.num := Int.lt_iff_add_one_le.mp (by exact_mod_cast h)
  exact_mod_cast h2

/-- Claim C4, counterexample.  First conjunct: a strict local peak whose
one-sided prominences are thinner than the `1e-8` epsilon produces a
parabolic offset of magnitude about 4.5, far outside the claimed ±0.5 range.
Second conjunct: a strictly increasing (fractional) beat-frame sequence whose
interpolation offsets all stay within ±0.5 still yields strictly DECREASING
timestamps (frame 10.9 is not refined while frame 11 is refined down to 10.6),
refuting the claimed monotonicity. -/
theorem frames_to_time_precise_not_monotone :
    (((1 : ℚ) - 9/1000000000 < 1 ∧ (1 : ℚ) - 1/1000000000000 < 1) ∧
      ¬ |parabOffset (1 - 9/1000000000) 1 (1 - 1/1000000000000)| ≤ 1/2) ∧
    (List.Sorted (· < ·) [(109/10 : ℚ), 11] ∧
      (∀ f ∈ [(109/10 : ℚ), 11],
        |refineFrame [0, 0, 0, 0, 0, 0, 0, 0, 0, 0, 9/10, 1, 1/10 + 4/100000000] f - f| ≤ 1/2) ∧
      ¬ List.Sorted (· ≤ ·) (frames_to_time_precise [109/10, 11]
          [0, 0, 0, 0, 0, 0, 0, 0, 0, 0, 9/10, 1, 1/10 + 4/100000000] 128 44100)) := by
  decide

/-- Claim C4, amended.  First conjunct: for integer-valued monotone beat-frame
sequences whose interpolation offsets stay within ±0.5 frame, the timestamps
are monotonically non-decreasing (the unamended claim fails for fractional
frames).  Second conjunct: the parabolic offset at a strict local peak lies
within ±0.5 provided both one-sided prominences exceed half the `1e-8`
epsilon (the unamended claim fails for thinner peaks). -/
theorem frames_to_time_precise_monotone :
    (∀ (onset_env frames : List ℚ) (hop sr : ℚ), 0 < hop → 0 < sr →
      (∀ f ∈ frames, f.den = 1) →
      List.Sorted (· ≤ ·) frames →
      (∀ f ∈ frames, |refineFrame onset_env f - f| ≤ 1/2) →
      List.Sorted (· ≤ ·) (frames_to_time_precise frames onset_env hop sr)) ∧
    (∀ a b c : ℚ, a < b → c < b →
      1/100000000 < 2*(b - a) → 1/100000000 < 2*(b - c) →
      |parabOffset a b c| ≤ 1/2) := by
  constructor
  · intro onset_env frames hop sr hhop hsr hint hsort hoff
    unfold frames_to_time_precise
    rw [List.Sorted, List.pairwise_map]
    refine List.Pairwise.imp_of_mem ?_ hsort
    intro f g hf hg hfg
    have key : refineFrame onset_env f ≤ refineFrame onset_env g := by
      rcases eq_or_lt_of_le hfg with heq | hlt
      · rw [heq]
      · have hstep := int_rat_add_one_le (hint f hf) (hint g hg) hlt
        have h1 := (abs_le.mp (hoff f hf)).2
        have h2 := (abs_le.mp (hoff g hg)).1
        linarith
    gcongr
  · intro a b c hab hcb ha2 hc2
    unfold parabOffset
    have hD : a - 2*b + c + 1/100000000 < 0 := by linarith
    have habs : |a - c| ≤ -(a - 2*b + c + 1/100000000) := by
      rw [abs_le]
      constructor <;> linarith
    calc |1/2 * (a - c) / (a - 2*b + c + 1/100000000)|
        = 1/2 * |a - c| / |a - 2*b + c + 1/100000000| := by
          rw [abs_div, abs_mul, abs_of_pos (show (0:ℚ) < 1/2 by norm_num)]
      _ = 1/2 * |a - c| / (-(a - 2*b + c + 1/100000000)) := by rw [abs_of_neg hD]
      _ ≤ 1/2 := by
          rw [div_le_iff₀ (by linarith)]
          linarith

/-- Witness for the amended claim C4: a three-sample envelope with a clean
symmetric peak gives monotone timestamps on the integer frame list `[1]`, and
the offset bound holds at the peak `(0, 1, 0)`. -/
theorem frames_to_time_precise_monotone_witness :
    List.Sorted (· ≤ ·) (frames_to_time_precise [1] [0, 1, 0] 128 44100) ∧
      |parabOffset 0 1 0| ≤ 1/2 :=
  ⟨frames_to_time_precise_monotone.1 [0, 1, 0] [1] 128 44100 (by decide) (by decide)
      (by decide) (by decide) (by decide),
    frames_to_time_precise_monotone.2 0 1 0 (by decide) (by decide) (by decide) (by decide)⟩

/-! ## Claims about the Beat-to-Onset Refiner's snapping behavior -/

theorem le_foldl_max_init : ∀ (xs : List ℚ) (a : ℚ), a ≤ xs.foldl max a
  | [], a => le_refl a
  | x :: xs, a => le_trans (le_max_left a x) (le_foldl_max_init xs (max a x))

theorem le_foldl_max_mem {y : ℚ} :
    ∀ (xs : List ℚ) (a : ℚ), y ∈ xs → y ≤ xs.foldl max a
  | x :: xs, a, h => by
    rcases List.mem_cons.mp h with h1 | h2
    · rw [h1, List.foldl_cons]
      exact le_trans (le_max_right a x) (le_foldl_max_init xs (max a x))
    · exact le_foldl_max_mem xs (max a x) h2

theorem foldl_max_mem : ∀ (xs : List ℚ) (a : ℚ),
    xs.foldl max a = a ∨ xs.foldl max a ∈ xs
  | [], _ => Or.inl rfl
  | x :: xs, a => by
    rcases foldl_max_mem xs (max a x) with heq | hmem
    · rcases max_choice a x with hc | hc
      · exact Or.inl (by rw [List.foldl_cons, heq, hc])
      · exact Or.inr (by rw [List.foldl_cons, heq, hc]; exact List.mem_cons_self x xs)
    · exact Or.inr (List.mem_cons_of_mem x hmem)

theorem listMax_mem {l : List ℚ} (h : l ≠ []) : listMax l ∈ l := by
  match l, h with
  | x :: xs, _ =>
    rcases foldl_max_mem xs x with heq | hmem
    · rw [listMax, heq]; exact List.mem_cons_self x xs
    · exact List.mem_cons_of_mem x hmem

theorem le_listMax {y : ℚ} {l : List ℚ} (h : y ∈ l) : y ≤ listMax l := by
  match l, h with
  | x :: xs, h =>
    rcases List.mem_cons.mp h with h1 | h2
    · exact h1 ▸ le_foldl_max_init xs x
    · exact le_foldl_max_mem xs x h2

theorem idxArgmax_lt_length {l : List ℚ} (h : l ≠ []) : idxArgmax l < l.length :=
  List.findIdx_lt_length_of_exists ⟨listMax l, listMax_mem h, by simp⟩

theorem getD_idxArgmax {l : List ℚ} (h : l ≠ []) : l.getD (idxArgmax l) 0 = listMax l := by
  have hlt : idxArgmax l < l.length := idxArgmax_lt_length h
  rw [List.getD_eq_getElem _ _ hlt]
  exact of_decide_eq_true (@List.findIdx_getElem _ _ _ hlt)

theorem foldl_min_le_init : ∀ (xs : List ℚ) (a : ℚ), xs.foldl min a ≤ a
  | [], a => le_refl a
  | x :: xs, a => le_trans (foldl_min_le_init xs (min a x)) (min_le_left a x)

theorem foldl_min_le_mem {y : ℚ} :
    ∀ (xs : List ℚ) (a : ℚ), y ∈ xs → xs.foldl min a ≤ y
  | x :: xs, a, h => by
    rcases List.mem_cons.mp h with h1 | h2
    · rw [h1, List.foldl_cons]
      exact le_trans (foldl_min_le_init xs (min a x)) (min_le_right a x)
    · exact foldl_min_le_mem xs (min a x) h2

theorem foldl_min_mem : ∀ (xs : List ℚ) (a : ℚ),
    xs.foldl min a = a ∨ xs.foldl min a ∈ xs
  | [], _ => Or.inl rfl
  | x :: xs, a => by
    rcases foldl_min_mem xs (min a x) with heq | hmem
    · rcases min_choice a x with hc | hc
      · exact Or.inl (by rw [List.foldl_cons, heq, hc])
      · exact Or.inr (by rw [List.foldl_cons, heq, hc]; exact List.mem_cons_self x xs)
    · exact Or.inr (List.mem_cons_of_mem x hmem)

theorem listMin_mem {l : List ℚ} (h : l ≠ []) : listMin l ∈ l := by
  match l, h with
  | x :: xs, _ =>
    rcases foldl_min_mem xs x with heq | hmem
    · rw [listMin, heq]; exact List.mem_cons_self x xs
    · exact List.mem_cons_of_mem x hmem

theorem listMin_le {y : ℚ} {l : List ℚ} (h : y ∈ l) : listMin l ≤ y := by
  match l, h with
  | x :: xs, h =>
    rcases List.mem_cons.mp h with h1 | h2
    · exact h1 ▸ foldl_min_le_init xs x
    · exact foldl_min_le_mem xs x h2

theorem idxArgmin_lt_length {l : List ℚ} (h : l ≠ []) : idxArgmin l < l.length :=
  List.findIdx_lt_length_of_exists ⟨listMin l, listMin_mem h, by simp⟩

theorem getD_idxArgmin {l : List ℚ} (h : l ≠ []) : l.getD (idxArgmin l) 0 = listMin l := by
  have hlt : idxArgmin l < l.length := idxArgmin_lt_length h
  rw [List.getD_eq_getElem _ _ hlt]
  exact of_decide_eq_true (@List.findIdx_getElem _ _ _ hlt)

theorem sub_den_one {o f : ℚ} (ho : o.den = 1) (hf : f.den = 1) : (o - f).den = 1 := by
  rw [← Rat.coe_int_num_of_den_eq_one ho, ← Rat.coe_int_num_of_den_eq_one hf,
    ← Int.cast_sub]
  exact Rat.den_intCast _

theorem abs_den_one {x : ℚ} (hx : x.den = 1) : |x|.den = 1 := by
  rcases abs_choice x with h | h
  · rw [h]; exact hx
  · rw [h, ← Rat.coe_int_num_of_den_eq_one hx, ← Int.cast_neg]
    exact Rat.den_intCast _

/-- For an integer-valued non-negative distance, comparison against the code's
truncated window `max(4, int(y/4))` agrees with comparison against the spec's
exact window `max(4, y/4)`. -/
theorem int_le_window_iff {d : ℚ} (hden : d.den = 1) (hd : 0 ≤ d) (y : ℚ) :
    d ≤ ((max 4 (pyInt y) : ℤ) : ℚ) ↔ d ≤ max 4 y := by
  rw [Int.cast_max]
  rw [le_max_iff, le_max_iff]
  constructor
  · rintro (h4 | hw)
    · exact Or.inl (by exact_mod_cast h4)
    · by_cases hy : 0 ≤ y
      · refine Or.inr (le_trans hw ?_)
        rw [pyInt, if_neg (not_lt.mpr hy)]
        exact_mod_cast Int.floor_le y
      · refine Or.inl (le_trans hw ?_)
        rw [pyInt, if_pos (lt_of_not_le hy)]
        have h0 : (0 : ℤ) ≤ ⌊-y⌋ := Int.le_floor.mpr (by push_cast; linarith)
        have : ((-⌊-y⌋ : ℤ) : ℚ) ≤ 0 := by exact_mod_cast Int.neg_nonpos_of_nonneg h0
        linarith
  · rintro (h4 | hy')
    · exact Or.inl (by exact_mod_cast h4)
    · by_cases hy : 0 ≤ y
      · refine Or.inr ?_
        rw [pyInt, if_neg (not_lt.mpr hy)]
        rw [← Rat.coe_int_num_of_den_eq_one hden] at hy' ⊢
        exact_mod_cast Int.le_floor.mpr hy'
      · exact absurd (le_trans hd hy') hy

theorem fbSeg_getD (onset_env : List ℚ) (w : ℤ) (frame : ℚ) (k : ℕ)
    (hk : k < (fbSeg onset_env w frame).length) :
    (fbSeg onset_env w frame).getD k 0 =
      onset_env.getD ((fbStart w frame).toNat + k) 0 := by
  have hk2 : (fbStart w frame).toNat + k < onset_env.length := by
    rw [fbSeg, List.length_take, List.length_drop] at hk
    omega
  rw [List.getD_eq_getElem _ _ hk, List.getD_eq_getElem _ _ hk2]
  simp only [fbSeg, List.getElem_take, List.getElem_drop]

/-- The snap-to-peak fallback, characterized: when the coarse frame lies
inside the envelope, the result is an integer position inside the clamped
window `[start, stop)` at which the envelope attains its maximum over that
window (the first such position, as `np.argmax` ties break low). -/
theorem peakFallback_spec (onset_env : List ℚ) (w : ℤ) (frame : ℚ)
    (hw : 0 < w) (h0 : 0 ≤ pyInt frame) (h1 : pyInt frame < (onset_env.length : ℤ)) :
    ∃ j : ℕ, peakFallback onset_env w frame = (j : ℚ) ∧
      (fbStart w frame).toNat ≤ j ∧ (j : ℤ) < fbStop onset_env w frame ∧
      ∀ m : ℕ, (fbStart w frame).toNat ≤ m → (m : ℤ) < fbStop onset_env w frame →
        onset_env.getD m 0 ≤ onset_env.getD j 0 := by
  have hs0 : (0 : ℤ) ≤ fbStart w frame := le_max_left 0 _
  have hsf : fbStart w frame ≤ pyInt frame := max_le h0 (by omega)
  have hfs : pyInt frame < fbStop onset_env w frame := lt_min h1 (by omega)
  have hlt : fbStart w frame < fbStop onset_env w frame := lt_of_le_of_lt hsf hfs
  have hstoplen : fbStop onset_env w frame ≤ (onset_env.length : ℤ) := min_le_left _ _
  have hseglen : (fbSeg onset_env w frame).length =
      (fbStop onset_env w frame - fbStart w frame).toNat := by
    rw [fbSeg, List.length_take, List.length_drop]
    omega
  have hsegne : fbSeg onset_env w frame ≠ [] := by
    apply List.ne_nil_of_length_pos
    rw [hseglen]
    omega
  have hidx : idxArgmax (fbSeg onset_env w frame) < (fbSeg onset_env w frame).length :=
    idxArgmax_lt_length hsegne
  have hidx2 : idxArgmax (fbSeg onset_env w frame) <
      (fbStop onset_env w frame - fbStart w frame).toNat := hseglen ▸ hidx
  refine ⟨(fbStart w frame).toNat + idxArgmax (fbSeg onset_env w frame), ?_, ?_, ?_, ?_⟩
  · rw [peakFallback, if_pos hlt]
    have hcast : (((fbStart w frame).toNat : ℕ) : ℚ) = ((fbStart w frame : ℤ) : ℚ) := by
      exact_mod_cast congrArg (fun z : ℤ => (z : ℚ)) (Int.toNat_of_nonneg hs0)
    push_cast
    rw [hcast]
  · exact Nat.le_add_right _ _
  · omega
  · intro m hm1 hm2
    have hj : onset_env.getD
        ((fbStart w frame).toNat + idxArgmax (fbSeg onset_env w frame)) 0 =
        listMax (fbSeg onset_env w frame) := by
      rw [← fbSeg_getD onset_env w frame _ hidx]
      exact getD_idxArgmax hsegne
    have hkm : m - (fbStart w frame).toNat < (fbSeg onset_env w frame).length := by
      rw [hseglen]
      omega
    have hm : onset_env.getD m 0 =
        (fbSeg onset_env w frame).getD (m - (fbStart w frame).toNat) 0 := by
      rw [fbSeg_getD onset_env w frame _ hkm]
      congr 1
      omega
    rw [hj, hm]
    apply le_listMax
    rw [List.getD_eq_getElem _ _ hkm]
    apply List.getElem_mem

/-- Claim C5: for each coarse beat position (over the integer-valued beat and
onset frames the refiner receives), with the search window
`max(4, median beat spacing / 4)`: if some onset lies within the window of
the beat, the beat is replaced by the exact frame of a nearest onset;
otherwise (in particular whenever the onset sequence is empty) the beat takes
the snap-to-peak fallback, which returns the position of the maximum of the
envelope within the clamped window `[start, stop)` around the beat. -/
theorem refine_beats_to_onsets_advanced_spec (onset_env beats onsets : List ℚ)
    (i : ℕ) (hi : i < beats.length) (hlen : 2 ≤ beats.length)
    (hb : ∀ x ∈ beats, x.den = 1) (ho : ∀ x ∈ onsets, x.den = 1) :
    ((∃ o ∈ onsets,
        (∀ q ∈ onsets, |o - beats.getD i 0| ≤ |q - beats.getD i 0|) ∧
        |o - beats.getD i 0| ≤ max 4 (median (diff beats) / 4) ∧
        (refine_beats_to_onsets_advanced onset_env beats onsets).getD i 0 = o) ∨
      ((∀ q ∈ onsets, ¬ |q - beats.getD i 0| ≤ max 4 (median (diff beats) / 4)) ∧
        (refine_beats_to_onsets_advanced onset_env beats onsets).getD i 0 =
          peakFallback onset_env (searchWindow beats) (beats.getD i 0))) ∧
    (onsets = [] →
      (refine_beats_to_onsets_advanced onset_env beats onsets).getD i 0 =
        peakFallback onset_env (searchWindow beats) (beats.getD i 0)) ∧
    (0 ≤ pyInt (beats.getD i 0) → pyInt (beats.getD i 0) < (onset_env.length : ℤ) →
      ∃ j : ℕ,
        peakFallback onset_env (searchWindow beats) (beats.getD i 0) = (j : ℚ) ∧
        (fbStart (searchWindow beats) (beats.getD i 0)).toNat ≤ j ∧
        (j : ℤ) < fbStop onset_env (searchWindow beats) (beats.getD i 0) ∧
        ∀ m : ℕ, (fbStart (searchWindow beats) (beats.getD i 0)).toNat ≤ m →
          (m : ℤ) < fbStop onset_env (searchWindow beats) (beats.getD i 0) →
          onset_env.getD m 0 ≤ onset_env.getD j 0) := by
  have hfmem : beats.getD i 0 ∈ beats := by
    rw [List.getD_eq_getElem _ _ hi]
    apply List.getElem_mem
  have hfden : (beats.getD i 0).den = 1 := hb _ hfmem
  have hwex : searchWindow beats = max 4 (pyInt (median (diff beats) / 4)) := by
    rw [searchWindow, if_pos (by omega : 1 < beats.length)]
  have hwpos : 0 < searchWindow beats := by
    rw [hwex]
    exact lt_of_lt_of_le (by norm_num) (le_max_left 4 _)
  have hi2 : i < (refine_beats_to_onsets_advanced onset_env beats onsets).length := by
    rw [refine_beats_to_onsets_advanced, List.length_map]
    exact hi
  have hmap : (refine_beats_to_onsets_advanced onset_env beats onsets).getD i 0 =
      refineOne onset_env onsets (searchWindow beats) (beats.getD i 0) := by
    rw [List.getD_eq_getElem _ _ hi2, List.getD_eq_getElem _ _ hi]
    simp only [refine_beats_to_onsets_advanced, List.getElem_map]
  refine ⟨?_, ?_, ?_⟩
  · by_cases hne : onsets = []
    · right
      constructor
      · intro q hq
        rw [hne] at hq
        exact absurd hq (List.not_mem_nil q)
      · rw [hmap, refineOne, if_neg (by simp [hne])]
    · have hdne : onsetDists onsets (beats.getD i 0) ≠ [] := by
        rw [onsetDists]
        simpa using hne
      have hni : idxArgmin (onsetDists onsets (beats.getD i 0)) < onsets.length := by
        have := idxArgmin_lt_length hdne
        rwa [onsetDists, List.length_map] at this
      have homem : onsets.getD (idxArgmin (onsetDists onsets (beats.getD i 0))) 0 ∈ onsets := by
        rw [List.getD_eq_getElem _ _ hni]
        apply List.getElem_mem
      have hdval : (onsetDists onsets (beats.getD i 0)).getD
          (idxArgmin (onsetDists onsets (beats.getD i 0))) 0 =
          |onsets.getD (idxArgmin (onsetDists onsets (beats.getD i 0))) 0 - beats.getD i 0| := by
        have hni2 : idxArgmin (onsetDists onsets (beats.getD i 0)) <
            (onsetDists onsets (beats.getD i 0)).length := idxArgmin_lt_length hdne
        rw [List.getD_eq_getElem _ _ hni2, List.getD_eq_getElem _ _ hni]
        simp only [onsetDists, List.getElem_map]
      have hdmin : ∀ q ∈ onsets,
          (onsetDists onsets (beats.getD i 0)).getD
            (idxArgmin (onsetDists onsets (beats.getD i 0))) 0 ≤ |q - beats.getD i 0| := by
        intro q hq
        rw [getD_idxArgmin hdne]
        exact listMin_le (by rw [onsetDists]; exact List.mem_map_of_mem _ hq)
      have hdden : |onsets.getD (idxArgmin (onsetDists onsets (beats.getD i 0))) 0 -
          beats.getD i 0|.den = 1 := abs_den_one (sub_den_one (ho _ homem) hfden)
      by_cases hcond : (onsetDists onsets (beats.getD i 0)).getD
          (idxArgmin (onsetDists onsets (beats.getD i 0))) 0 ≤ ((searchWindow beats : ℤ) : ℚ)
      · left
        refine ⟨onsets.getD (idxArgmin (onsetDists onsets (beats.getD i 0))) 0, homem,
          ?_, ?_, ?_⟩
        · intro q hq
          rw [← hdval]
          exact hdmin q hq
        · rw [← hdval]
          have hb2 := hcond
          rw [hwex] at hb2
          rw [hdval] at hb2 ⊢
          exact (int_le_window_iff hdden (abs_nonneg _) _).mp hb2
        · rw [hmap, refineOne, if_pos (List.length_pos.mpr hne), if_pos hcond]
      · right
        constructor
        · intro q hq hle
          apply hcond
          refine le_trans (hdmin q hq) ?_
          rw [hwex]
          exact (int_le_window_iff (abs_den_one (sub_den_one (ho _ hq) hfden))
            (abs_nonneg _) _).mpr hle
        · rw [hmap, refineOne, if_pos (List.length_pos.mpr hne), if_neg hcond]
  · intro h
    rw [hmap, refineOne, if_neg (by simp [h])]
  · intro h0 h1
    exact peakFallback_spec onset_env (searchWindow beats) (beats.getD i 0) hwpos h0 h1

/-- Witness for claim C5 at a concrete input: envelope `[0,1,0]`, beats
`[0,1]`, onsets `[1,5]`, beat index 0. -/
theorem refine_beats_to_onsets_advanced_spec_witness :
    ((∃ o ∈ ([1, 5] : List ℚ),
        (∀ q ∈ ([1, 5] : List ℚ),
          |o - ([0, 1] : List ℚ).getD 0 0| ≤ |q - ([0, 1] : List ℚ).getD 0 0|) ∧
        |o - ([0, 1] : List ℚ).getD 0 0| ≤ max 4 (median (diff [0, 1]) / 4) ∧
        (refine_beats_to_onsets_advanced [0, 1, 0] [0, 1] [1, 5]).getD 0 0 = o) ∨
      ((∀ q ∈ ([1, 5] : List ℚ),
          ¬ |q - ([0, 1] : List ℚ).getD 0 0| ≤ max 4 (median (diff [0, 1]) / 4)) ∧
        (refine_beats_to_onsets_advanced [0, 1, 0] [0, 1] [1, 5]).getD 0 0 =
          peakFallback [0, 1, 0] (searchWindow [0, 1]) (([0, 1] : List ℚ).getD 0 0))) ∧
    (([1, 5] : List ℚ) = [] →
      (refine_beats_to_onsets_advanced [0, 1, 0] [0, 1] [1, 5]).getD 0 0 =
        peakFallback [0, 1, 0] (searchWindow [0, 1]) (([0, 1] : List ℚ).getD 0 0)) ∧
    (0 ≤ pyInt (([0, 1] : List ℚ).getD 0 0) →
      pyInt (([0, 1] : List ℚ).getD 0 0) < (([0, 1, 0] : List ℚ).length : ℤ) →
      ∃ j : ℕ,
        peakFallback [0, 1, 0] (searchWindow [0, 1]) (([0, 1] : List ℚ).getD 0 0) = (j : ℚ) ∧
        (fbStart (searchWindow [0, 1]) (([0, 1] : List ℚ).getD 0 0)).toNat ≤ j ∧
        (j : ℤ) < fbStop [0, 1, 0] (searchWindow [0, 1]) (([0, 1] : List ℚ).getD 0 0) ∧
        ∀ m : ℕ, (fbStart (searchWindow [0, 1]) (([0, 1] : List ℚ).getD 0 0)).toNat ≤ m →
          (m : ℤ) < fbStop [0, 1, 0] (searchWindow [0, 1]) (([0, 1] : List ℚ).getD 0 0) →
          ([0, 1, 0] : List ℚ).getD m 0 ≤ ([0, 1, 0] : List ℚ).getD j 0) :=
  refine_beats_to_onsets_advanced_spec [0, 1, 0] [0, 1] [1, 5] 0
    (by decide) (by decide) (by decide) (by decide)

end Companella
